import Mathlib

/-!
Verification of the localRAG-api core against its specification.

The development shallowly embeds the core of the repository:

* the chunking loop of `splitIntoChunks` (src/rag.ts, lines 57-86),
* the cosine-similarity scoring and combination of `cosineSimilarity` and
  `findSimilarChunks` (src/rag.ts, lines 120-178),
* the reranking composition `rerankChunks` (src/rag.ts, lines 180-212) and the
  rerank-score attachment of `handleSearchChunks` (src/db-rag.ts, lines 204-220),
* the persisted Stage-1 retrieval query built in `handleSearchChunks`
  (src/db-rag.ts, lines 116-175),
* the in-memory query pipeline `handleQueryChunks` (src/rag.ts, lines 293-391),
* the model-resource cache `loadModel` (src/models.ts, lines 21-54), both as a
  sequential function and as a small interleaving machine for its `await`
  suspension points.

JavaScript numbers are modelled as exact reals extended with the IEEE special
values NaN and the two infinities (rounding is not modelled); JavaScript
exceptions are modelled with `Except`.
-/

namespace LocalRAG

/-- A JavaScript number: a finite (exact) real, one of the two infinities, or
NaN.  Rounding of IEEE doubles is not modelled. -/
inductive JSNum where
  | finite (x : ℝ)
  | posInf
  | negInf
  | nan

/-- JavaScript division `x / y` of two finite numbers: ordinary division when
`y ≠ 0`; when `y = 0`, the result is NaN for `x = 0` and a signed infinity
otherwise. -/
noncomputable def jsDiv (x y : ℝ) : JSNum :=
  if y = 0 then
    if x = 0 then JSNum.nan else if 0 < x then JSNum.posInf else JSNum.negInf
  else JSNum.finite (x / y)

/-- JavaScript multiplication of a finite constant by a number
(`0.6 * contentScore` and the like).  NaN propagates; a zero constant times an
infinity is NaN. -/
noncomputable def jsMul (c : ℝ) : JSNum → JSNum
  | JSNum.finite x => JSNum.finite (c * x)
  | JSNum.posInf => if 0 < c then JSNum.posInf else if c < 0 then JSNum.negInf else JSNum.nan
  | JSNum.negInf => if 0 < c then JSNum.negInf else if c < 0 then JSNum.posInf else JSNum.nan
  | JSNum.nan => JSNum.nan

/-- JavaScript addition.  NaN propagates; opposite infinities give NaN. -/
def jsAdd : JSNum → JSNum → JSNum
  | JSNum.nan, _ => JSNum.nan
  | _, JSNum.nan => JSNum.nan
  | JSNum.finite x, JSNum.finite y => JSNum.finite (x + y)
  | JSNum.finite _, JSNum.posInf => JSNum.posInf
  | JSNum.finite _, JSNum.negInf => JSNum.negInf
  | JSNum.posInf, JSNum.finite _ => JSNum.posInf
  | JSNum.negInf, JSNum.finite _ => JSNum.negInf
  | JSNum.posInf, JSNum.posInf => JSNum.posInf
  | JSNum.negInf, JSNum.negInf => JSNum.negInf
  | JSNum.posInf, JSNum.negInf => JSNum.nan
  | JSNum.negInf, JSNum.posInf => JSNum.nan

/-- Sort key for a `JSNum` used by the model of `Array.prototype.sort` with a
numeric comparator: finite values and the infinities order as in `EReal`.  A
NaN comparator value leaves the engine's sort order unspecified; the model
places NaN at the bottom, an arbitrary total completion. -/
noncomputable def jsOrdKey : JSNum → EReal
  | JSNum.finite x => (x : EReal)
  | JSNum.posInf => ⊤
  | JSNum.negInf => ⊥
  | JSNum.nan => ⊥

/-- The dot product accumulated by the loop of `cosineSimilarity`
(src/rag.ts, lines 130-134). -/
def dotProduct (a b : List ℝ) : ℝ :=
  (List.zipWith (fun x y => x * y) a b).sum

/-- The squared norm `normA` (resp. `normB`) accumulated by the same loop. -/
def sumSq (a : List ℝ) : ℝ :=
  (a.map (fun x => x * x)).sum

/-- `cosineSimilarity` (src/rag.ts, lines 121-137): throws when the lengths
differ, otherwise returns `dotProduct / (Math.sqrt(normA) * Math.sqrt(normB))`
with JavaScript division semantics. -/
noncomputable def cosineSimilarity (a b : List ℝ) : Except String JSNum :=
  if a.length ≠ b.length then Except.error "Vectors must have the same length"
  else Except.ok (jsDiv (dotProduct a b) (Real.sqrt (sumSq a) * Real.sqrt (sumSq b)))

/-- A chunk as carried through the pipeline (src/types.ts): content, optional
generated context, optional embeddings, and the `start_idx`/`end_idx` metadata
written by the chunker. -/
structure Chunk where
  content : String
  context : Option String := none
  content_embedding : Option (List ℝ) := none
  context_embedding : Option (List ℝ) := none
  start_idx : Nat := 0
  end_idx : Nat := 0

/-- Clamp one bound of `Array.prototype.slice`: a negative index counts from
the end of the array, a nonnegative one is capped at the length. -/
def jsSliceBound (len : Nat) (x : Int) : Nat :=
  if x < 0 then (max ((len : Int) + x) 0).toNat else min x.toNat len

/-- `words.slice(a, b)` for a list. -/
def jsSlice {α : Type} (l : List α) (a b : Int) : List α :=
  (l.take (jsSliceBound l.length b)).drop (jsSliceBound l.length a)

/-- One pass of the chunking loop of `splitIntoChunks` (src/rag.ts, lines
68-77): `for (let i = 0; i < words.length; i += chunkSize - overlap)` pushing
`words.slice(i, i + chunkSize)` joined by single spaces, with metadata
`start_idx = i`, `end_idx = i + chunkWords.length`.  The index is an integer
(the stride `chunkSize - overlap` may be zero or negative, in which case the
source loop never terminates); the model makes divergence observable by
running on fuel and returning `none` when the fuel is exhausted. -/
def chunkLoop (words : List String) (chunkSize overlap : Nat) :
    Nat → Int → List Chunk → Option (List Chunk)
  | 0, _, _ => none
  | fuel + 1, i, acc =>
    if i < (words.length : Int) then
      let chunkWords := jsSlice words i (i + (chunkSize : Int))
      let c : Chunk :=
        { content := String.intercalate " " chunkWords,
          start_idx := i.toNat, end_idx := i.toNat + chunkWords.length }
      chunkLoop words chunkSize overlap fuel
        (i + ((chunkSize : Int) - (overlap : Int))) (acc ++ [c])
    else some acc

/-- `splitIntoChunks` (src/rag.ts, lines 58-86) on the whitespace-token list
`words` (the source first computes `text.split(/\s+/)`, which is always a
nonempty array).  `words.length + 1` units of fuel are enough for every
terminating run of the source loop, so `none` means the source loop diverges. -/
def splitIntoChunks (words : List String) (chunkSize : Nat := 500) (overlap : Nat := 50) :
    Option (List Chunk) :=
  chunkLoop words chunkSize overlap (words.length + 1) 0 []

/-- The chunk pushed by one iteration of the loop at nonnegative index `i`. -/
def mkChunkAt (words : List String) (chunkSize i : Nat) : Chunk :=
  { content := String.intercalate " " (jsSlice words (i : Int) ((i : Int) + (chunkSize : Int))),
    start_idx := i,
    end_idx := i + (jsSlice words (i : Int) ((i : Int) + (chunkSize : Int))).length }

/-- The chunk list produced from index `i` on by a terminating run of the
chunking loop, with stride `s = chunkSize - overlap > 0`: the closed-form
companion of `chunkLoop` used to reason about chunk boundaries. -/
def chunksFrom (words : List String) (chunkSize s : Nat) (hs : 0 < s) (i : Nat) :
    List Chunk :=
  if _h : i < words.length then
    mkChunkAt words chunkSize i :: chunksFrom words chunkSize s hs (i + s)
  else []
termination_by words.length - i
decreasing_by simp_wf; omega

/-- Token position `p` lies inside chunk `c` (its metadata half-open interval). -/
def chunkCovers (c : Chunk) (p : Nat) : Prop :=
  c.start_idx ≤ p ∧ p < c.end_idx

instance (c : Chunk) (p : Nat) : Decidable (chunkCovers c p) := by
  unfold chunkCovers; exact inferInstance

/-- The score record attached by `findSimilarChunks` and `rerankChunks`
(src/types.ts `ChunkWithScore.scores`). -/
structure Scores where
  content : JSNum
  context : Option JSNum := none
  combined : JSNum
  reranked : Option JSNum := none

/-- A chunk with its scores. -/
structure ChunkWithScore where
  toChunk : Chunk
  scores : Scores

/-- Scoring of one candidate inside the `.map` of `findSimilarChunks`
(src/rag.ts, lines 145-175): throws when the content embedding is missing,
computes `contentScore`, computes `contextScore` only when a context embedding
is present, and combines with fixed weights 0.6/0.4 (else the combined score is
the content score). -/
noncomputable def scoreChunk (queryEmbedding : List ℝ) (chunk : Chunk) :
    Except String ChunkWithScore :=
  match chunk.content_embedding with
  | none => Except.error "Chunk missing content embedding"
  | some ce =>
    match cosineSimilarity queryEmbedding ce with
    | Except.error e => Except.error e
    | Except.ok contentScore =>
      match chunk.context_embedding with
      | none =>
        Except.ok
          { toChunk := chunk,
            scores := { content := contentScore, context := none, combined := contentScore } }
      | some xe =>
        match cosineSimilarity queryEmbedding xe with
        | Except.error e => Except.error e
        | Except.ok contextScore =>
          Except.ok
            { toChunk := chunk,
              scores :=
                { content := contentScore, context := some contextScore,
                  combined := jsAdd (jsMul 0.6 contentScore) (jsMul 0.4 contextScore) } }

/-- The `.map` of `findSimilarChunks` over all candidates; a throw on any
candidate aborts the whole map, as in the source. -/
noncomputable def scoreChunks (queryEmbedding : List ℝ) :
    List Chunk → Except String (List ChunkWithScore)
  | [] => Except.ok []
  | c :: cs =>
    match scoreChunk queryEmbedding c with
    | Except.error e => Except.error e
    | Except.ok sc =>
      match scoreChunks queryEmbedding cs with
      | Except.error e => Except.error e
      | Except.ok rest => Except.ok (sc :: rest)

/-- The comparator `(a, b) => b.scores.combined - a.scores.combined` of
`findSimilarChunks` as a boolean "a may precede b" relation (descending by
combined score).  Node's `Array.prototype.sort` is stable, modelled by a
stable merge sort. -/
noncomputable def combinedDescLe (a b : ChunkWithScore) : Bool :=
  decide (jsOrdKey b.scores.combined ≤ jsOrdKey a.scores.combined)

/-- `findSimilarChunks` (src/rag.ts, lines 140-178): score every candidate,
then sort descending by combined score. -/
noncomputable def findSimilarChunks (queryEmbedding : List ℝ) (chunks : List Chunk) :
    Except String (List ChunkWithScore) :=
  match scoreChunks queryEmbedding chunks with
  | Except.error e => Except.error e
  | Except.ok scored => Except.ok (scored.mergeSort combinedDescLe)

/-- The sort key of `rerankChunks`: `scores.reranked ?? scores.combined`. -/
def rerankKeyOf (c : ChunkWithScore) : JSNum :=
  c.scores.reranked.getD c.scores.combined

/-- The comparator of `rerankChunks` (descending by
`scores.reranked ?? scores.combined`). -/
noncomputable def rerankDescLe (a b : ChunkWithScore) : Bool :=
  decide (jsOrdKey (rerankKeyOf b) ≤ jsOrdKey (rerankKeyOf a))

/-- The per-index update `{ ...chunks[idx], scores: { ...chunks[idx].scores,
reranked: result.score } }` of `rerankChunks`. -/
def attachReranked (c : ChunkWithScore) (score : ℝ) : ChunkWithScore :=
  { c with scores := { c.scores with reranked := some (JSNum.finite score) } }

/-- `rerankChunks` (src/rag.ts, lines 181-212) after the external ranking call:
the reranker's output scores, one per input index (`rankedScores`), are
assigned positionally to the Stage-1 chunks, then the list is re-sorted
descending by reranked score and truncated to `topK`.
`rankedResults.map((result, idx) => ...chunks[idx])` is the zip of the two
lists when the reranker honours its one-score-per-input contract. -/
noncomputable def rerankChunks (chunks : List ChunkWithScore) (rankedScores : List ℝ)
    (topK : Nat) : List ChunkWithScore :=
  (((chunks.zip rankedScores).map (fun p => attachReranked p.1 p.2)).mergeSort
    rerankDescLe).take topK

/-- The kind of a model resource (src/types.ts `ModelType`). -/
inductive ModelType where
  | chat
  | embedding
  | reranker
deriving DecidableEq

/-- `MODEL_DIRS` (src/types.ts). -/
def MODEL_DIRS : ModelType → String
  | ModelType.chat => "./models/chat"
  | ModelType.embedding => "./models/embedding"
  | ModelType.reranker => "./models/reranker"

/-- Append `.gguf` when missing (src/models.ts, lines 27-29). -/
def modelFileName (modelName : String) : String :=
  if modelName.endsWith ".gguf" then modelName else modelName ++ ".gguf"

/-- The cache key `path.join(MODEL_DIRS[type], modelFileName)`
(src/models.ts, line 30). -/
def modelPath (modelName : String) (ty : ModelType) : String :=
  MODEL_DIRS ty ++ "/" ++ modelFileName modelName

/-- A cached `ModelContext` (src/types.ts): the loaded model handle, the
recency stamp, and the kind-specific capability contexts.  Handles and
capability contexts are opaque to the cache and modelled by identifiers. -/
structure ModelContextM where
  model : Nat
  lastUsed : Nat
  embeddingContext : Option Nat := none
  rankingContext : Option Nat := none
deriving DecidableEq

/-- `loadedModels.get(key)` on the insertion-ordered map, as an association
list. -/
def lookupCache (cache : List (String × ModelContextM)) (key : String) :
    Option ModelContextM :=
  match cache with
  | [] => none
  | (k, v) :: rest => if k = key then some v else lookupCache rest key

/-- `loadedModels.set(key, v)`: replace in place when present, else append. -/
def setCache (cache : List (String × ModelContextM)) (key : String) (v : ModelContextM) :
    List (String × ModelContextM) :=
  match cache with
  | [] => [(key, v)]
  | (k, w) :: rest => if k = key then (key, v) :: rest else (k, w) :: setCache rest key v

/-- Sequential denotation of `loadModel` (src/models.ts, lines 22-54).  The
external calls are given by their outcomes: `loadOutcome` for
`llama.loadModel`, and `embCtxOutcome` / `rankCtxOutcome` for
`createEmbeddingContext` / `createRankingContext`.  Returns the result
surfaced to the caller together with the cache after the call; a thrown error
leaves the cache exactly as it was, because the source only calls
`loadedModels.set` after every awaited step has succeeded. -/
def loadModel (cache : List (String × ModelContextM)) (now : Nat) (modelName : String)
    (ty : ModelType) (loadOutcome : Except String Nat)
    (embCtxOutcome rankCtxOutcome : Except String Nat) :
    Except String ModelContextM × List (String × ModelContextM) :=
  let key := modelPath modelName ty
  match lookupCache cache key with
  | some existing =>
    let updated := { existing with lastUsed := now }
    (Except.ok updated, setCache cache key updated)
  | none =>
    match loadOutcome with
    | Except.error e => (Except.error e, cache)
    | Except.ok handle =>
      match ty with
      | ModelType.embedding =>
        match embCtxOutcome with
        | Except.error e => (Except.error e, cache)
        | Except.ok ec =>
          let ctx : ModelContextM :=
            { model := handle, lastUsed := now, embeddingContext := some ec }
          (Except.ok ctx, setCache cache key ctx)
      | ModelType.reranker =>
        match rankCtxOutcome with
        | Except.error e => (Except.error e, cache)
        | Except.ok rc =>
          let ctx : ModelContextM :=
            { model := handle, lastUsed := now, rankingContext := some rc }
          (Except.ok ctx, setCache cache key ctx)
      | ModelType.chat =>
        let ctx : ModelContextM := { model := handle, lastUsed := now }
        (Except.ok ctx, setCache cache key ctx)

/-- Program counter of one in-flight `loadModel(name, "embedding")` call,
split at its `await` suspension points: the synchronous prefix up to starting
`llama.loadModel` (the cache lookup), the suspension inside the load, the
suspension inside `createEmbeddingContext`, and the returned handle (with a
flag recording whether it came from the cache). -/
inductive TaskPC where
  | ready
  | awaitingLoad
  | awaitingCtx (handle : Nat)
  | returned (handle : Nat) (fromCache : Bool)
deriving DecidableEq

/-- Two concurrent `loadModel` calls for the same key over the shared cache.
`loads` counts invocations of the underlying `llama.loadModel`; `nextHandle`
allocates fresh handles for completed loads.  Wall-clock time is irrelevant to
the property and `Date.now()` is modelled as 0. -/
structure CSys where
  cache : List (String × ModelContextM)
  loads : Nat
  nextHandle : Nat
  pcA : TaskPC
  pcB : TaskPC
deriving DecidableEq

/-- Run one atomic block of a task: the source synchronous code between two
`await` points, exactly as in src/models.ts lines 31-53. -/
def taskStep (key : String) (s : CSys) (pc : TaskPC) : CSys × TaskPC :=
  match pc with
  | TaskPC.ready =>
    match lookupCache s.cache key with
    | some ctx =>
      let updated := { ctx with lastUsed := 0 }
      ({ s with cache := setCache s.cache key updated },
        TaskPC.returned ctx.model true)
    | none => ({ s with loads := s.loads + 1 }, TaskPC.awaitingLoad)
  | TaskPC.awaitingLoad =>
    ({ s with nextHandle := s.nextHandle + 1 }, TaskPC.awaitingCtx s.nextHandle)
  | TaskPC.awaitingCtx handle =>
    let ctx : ModelContextM := { model := handle, lastUsed := 0, embeddingContext := some handle }
    ({ s with cache := setCache s.cache key ctx }, TaskPC.returned handle false)
  | TaskPC.returned handle fromCache => (s, TaskPC.returned handle fromCache)

/-- Scheduler step: advance task B when `who` is true, else task A. -/
def schedStep (key : String) (s : CSys) (who : Bool) : CSys :=
  if who then
    let r := taskStep key s s.pcB
    { r.1 with pcB := r.2 }
  else
    let r := taskStep key s s.pcA
    { r.1 with pcA := r.2 }

/-- Run a schedule (a list of which-task choices). -/
def runSched (key : String) : List Bool → CSys → CSys
  | [], s => s
  | w :: ws, s => runSched key ws (schedStep key s w)

/-- Both calls start with an empty cache and the key not yet loaded. -/
def initCSys : CSys :=
  { cache := [], loads := 0, nextHandle := 0, pcA := TaskPC.ready, pcB := TaskPC.ready }

/-- The in-memory query pipeline `handleQueryChunks` (src/rag.ts, lines
294-391), abstracting the HTTP layer: the external embedding of the query is
given as `queryEmbedding`, the external reranker output as `rankedScores`, and
the capability checks `modelContext.embeddingContext` /
`modelContext.rankingContext` as booleans.  The second component records, in
order, every `loadModel` acquisition the handler performs.  (`!chunks` in the
source guard is never true for an array value, so the guard only involves
`query` and `embeddingModel`.) -/
noncomputable def handleQueryChunks (query : String) (chunks : List Chunk)
    (embeddingModel : String) (rerankerModel : Option String) (topK : Nat)
    (shouldRerank : Bool) (hasEmbeddingContext : Bool) (queryEmbedding : List ℝ)
    (hasRankingContext : Bool) (rankedScores : List ℝ) :
    Except String (List ChunkWithScore) × List (String × ModelType) :=
  if query = "" ∨ embeddingModel = "" then
    (Except.error "Missing required parameters: query, chunks, embeddingModel", [])
  else
    let acquired := [(embeddingModel, ModelType.embedding)]
    if hasEmbeddingContext then
      match findSimilarChunks queryEmbedding chunks with
      | Except.error e => (Except.error e, acquired)
      | Except.ok similarChunks =>
        match shouldRerank, rerankerModel with
        | true, some rm =>
          let acquired := acquired ++ [(rm, ModelType.reranker)]
          if hasRankingContext then
            (Except.ok (rerankChunks similarChunks rankedScores topK), acquired)
          else (Except.error "Model is not suitable for reranking", acquired)
        | _, _ => (Except.ok (similarChunks.take topK), acquired)
    else (Except.error "Model is not suitable for embeddings", acquired)

/-- Cosine similarity as computed by the store (`1 - cosineDistance` over
pgvector), as a total real function. -/
noncomputable def cosSimR (a b : List ℝ) : ℝ :=
  dotProduct a b / (Real.sqrt (sumSq a) * Real.sqrt (sumSq b))

/-- A stored row of the `dataset` table as selected by `handleSearchChunks`
(src/db-rag.ts); `handleStoreDocument` always writes both embeddings. -/
structure DbRow where
  content : String
  context : String
  content_embedding : List ℝ
  context_embedding : List ℝ
  file_id : String := ""
  folder_id : Option String := none

/-- A selected row with its three precomputed scores. -/
structure DbScored where
  row : DbRow
  content_score : ℝ
  context_score : ℝ
  combined_score : ℝ

/-- The three SQL score expressions of `handleSearchChunks` (src/db-rag.ts,
lines 141-152): content and context cosine similarity against the query
embedding, combined with the fixed weights 0.6/0.4. -/
noncomputable def dbScore (queryEmbedding : List ℝ) (r : DbRow) : DbScored :=
  { row := r,
    content_score := cosSimR r.content_embedding queryEmbedding,
    context_score := cosSimR r.context_embedding queryEmbedding,
    combined_score := 0.6 * cosSimR r.content_embedding queryEmbedding +
      0.4 * cosSimR r.context_embedding queryEmbedding }

/-- `ORDER BY combined_score DESC` as a boolean relation. -/
noncomputable def dbDescLe (a b : DbScored) : Bool :=
  decide (b.combined_score ≤ a.combined_score)

/-- The conditional folder filter of the WHERE clause. -/
def folderMatches (folder : Option String) (r : DbRow) : Bool :=
  match folder with
  | none => true
  | some f => decide (r.folder_id = some f)

/-- The Stage-1 retrieval query of `handleSearchChunks` (src/db-rag.ts, lines
155-175), denoted with standard SQL semantics: score every row, keep rows with
`combined_score >= threshold` (and the folder when one is given), order
descending by combined score, and limit to `top_k`. -/
noncomputable def handleSearchChunksStage1Rows (queryEmbedding : List ℝ)
    (rows : List DbRow) (top_k : Nat) (threshold : ℝ) (folder : Option String) :
    List DbScored :=
  (((rows.map (dbScore queryEmbedding)).filter
    (fun s => decide (threshold ≤ s.combined_score) && folderMatches folder s.row)).mergeSort
      dbDescLe).take top_k

/-- `handleSearchChunks` Stage 1 with its request validation (src/db-rag.ts,
lines 130-135): a threshold outside `[0, 1]` is rejected before any retrieval. -/
noncomputable def handleSearchChunksStage1 (queryEmbedding : List ℝ) (rows : List DbRow)
    (top_k : Nat) (threshold : ℝ) (folder : Option String) :
    Except String (List DbScored) :=
  if threshold < 0 ∨ 1 < threshold then
    Except.error "Threshold must be a number between 0 and 1"
  else Except.ok (handleSearchChunksStage1Rows queryEmbedding rows top_k threshold folder)

/-- The rerank-score attachment of `handleSearchChunks` (src/db-rag.ts, lines
205-220): `results.map((chunk, i) => ({ ...chunk, scores: { ...chunk.scores,
reranked: rerankedResults[i]?.score } }))`.  The result list is neither
re-sorted nor truncated afterwards. -/
def dbAttachRerank : List ChunkWithScore → List ℝ → List ChunkWithScore
  | [], _ => []
  | c :: cs, [] =>
    { c with scores := { c.scores with reranked := none } } :: dbAttachRerank cs []
  | c :: cs, r :: rs =>
    { c with scores := { c.scores with reranked := some (JSNum.finite r) } } ::
      dbAttachRerank cs rs

/-! ## Theorems -/

/-- C2: the source loop of `splitIntoChunks` performs no `overlap < chunkSize`
validation.  With `overlap >= chunkSize` the stride `chunkSize - overlap` is
`<= 0`, the loop index never reaches `words.length` (every split of a text is
a nonempty token array), so the loop never terminates and never produces
chunks - no `InvalidConfig` error is ever raised. -/
theorem splitIntoChunks_overlap_ge_chunkSize_diverges
    (words : List String) (chunkSize overlap : Nat)
    (hw : words ≠ []) (hov : chunkSize ≤ overlap) :
    (∀ fuel acc, ∀ i : Int, i ≤ 0 → chunkLoop words chunkSize overlap fuel i acc = none) ∧
    splitIntoChunks words chunkSize overlap = none := by
  have hlen : 0 < words.length := List.length_pos.mpr hw
  have hcast : (0 : Int) < (words.length : Int) := by exact_mod_cast hlen
  have hco : (chunkSize : Int) ≤ (overlap : Int) := by exact_mod_cast hov
  have main : ∀ fuel acc, ∀ i : Int, i ≤ 0 →
      chunkLoop words chunkSize overlap fuel i acc = none := by
    intro fuel
    induction fuel with
    | zero => intro acc i _; rfl
    | succ n ih =>
      intro acc i hi
      have hguard : i < (words.length : Int) := by omega
      simp only [chunkLoop, if_pos hguard]
      exact ih _ _ (by omega)
  exact ⟨main, main _ _ _ le_rfl⟩

/-- Witness for C2 at the spec's own test input `chunk(text, 10, 10)`. -/
theorem splitIntoChunks_overlap_ge_chunkSize_diverges_witness :
    splitIntoChunks ["a", "b", "c"] 10 10 = none :=
  (splitIntoChunks_overlap_ge_chunkSize_diverges ["a", "b", "c"] 10 10
    (by decide) (by decide)).2

lemma chunksFrom_cons (words : List String) (chunkSize s : Nat) (hs : 0 < s)
    {i : Nat} (hi : i < words.length) :
    chunksFrom words chunkSize s hs i =
      mkChunkAt words chunkSize i :: chunksFrom words chunkSize s hs (i + s) := by
  rw [chunksFrom]
  simp [hi]

lemma chunksFrom_nil (words : List String) (chunkSize s : Nat) (hs : 0 < s)
    {i : Nat} (hi : ¬ i < words.length) :
    chunksFrom words chunkSize s hs i = [] := by
  rw [chunksFrom]
  simp [hi]

lemma jsSlice_length_of_lt (words : List String) (chunkSize : Nat) {i : Nat}
    (h : i < words.length) :
    (jsSlice words (i : Int) ((i : Int) + (chunkSize : Int))).length =
      min (i + chunkSize) words.length - i := by
  have e1 : jsSliceBound words.length ((i : Int) + (chunkSize : Int)) =
      min (i + chunkSize) words.length := by
    unfold jsSliceBound
    rw [if_neg (by omega : ¬ ((i : Int) + (chunkSize : Int) < 0))]
    have : ((i : Int) + (chunkSize : Int)).toNat = i + chunkSize := by omega
    rw [this]
  have e2 : jsSliceBound words.length (i : Int) = i := by
    unfold jsSliceBound
    rw [if_neg (by omega : ¬ ((i : Int) < 0))]
    have : ((i : Int)).toNat = i := by omega
    rw [this]
    omega
  unfold jsSlice
  rw [e1, e2, List.length_drop, List.length_take]
  omega

lemma mkChunkAt_end_idx (words : List String) (chunkSize : Nat) {i : Nat}
    (h : i < words.length) :
    (mkChunkAt words chunkSize i).end_idx = min (i + chunkSize) words.length := by
  unfold mkChunkAt
  simp only
  rw [jsSlice_length_of_lt words chunkSize h]
  omega

lemma chunkLoop_succ (words : List String) (chunkSize overlap fuel : Nat) (i : Int)
    (acc : List Chunk) :
    chunkLoop words chunkSize overlap (fuel + 1) i acc =
      if i < (words.length : Int) then
        chunkLoop words chunkSize overlap fuel (i + ((chunkSize : Int) - (overlap : Int)))
          (acc ++
            [{ content := String.intercalate " " (jsSlice words i (i + (chunkSize : Int))),
               start_idx := i.toNat,
               end_idx := i.toNat + (jsSlice words i (i + (chunkSize : Int))).length }])
      else some acc := rfl

lemma chunkLoop_terminates (words : List String) (chunkSize overlap : Nat)
    (hov : overlap < chunkSize) :
    ∀ fuel (i : Nat) acc, words.length ≤ i + fuel →
      chunkLoop words chunkSize overlap (fuel + 1) (i : Int) acc =
        some (acc ++
          chunksFrom words chunkSize (chunkSize - overlap) (Nat.sub_pos_of_lt hov) i) := by
  intro fuel
  induction fuel with
  | zero =>
    intro i acc hle
    have hi : ¬ i < words.length := by omega
    have hguard : ¬ ((i : Int) < (words.length : Int)) := by
      exact_mod_cast Nat.not_lt.mpr (by omega)
    rw [chunkLoop_succ, if_neg hguard, chunksFrom_nil words chunkSize _ _ hi]
    simp
  | succ n ih =>
    intro i acc hle
    by_cases hi : i < words.length
    · have hguard : (i : Int) < (words.length : Int) := by exact_mod_cast hi
      have harg : (i : Int) + ((chunkSize : Int) - (overlap : Int)) =
          ((i + (chunkSize - overlap) : Nat) : Int) := by
        have h1 : overlap ≤ chunkSize := le_of_lt hov
        push_cast [h1]
        ring
      rw [chunkLoop_succ, if_pos hguard, harg, ih (i + (chunkSize - overlap)) _ (by omega),
        chunksFrom_cons words chunkSize _ _ hi]
      simp [mkChunkAt, Int.toNat_natCast, List.append_assoc]
    · have hguard : ¬ ((i : Int) < (words.length : Int)) := by
        exact_mod_cast hi
      rw [chunkLoop_succ, if_neg hguard, chunksFrom_nil words chunkSize _ _ hi]
      simp

lemma splitIntoChunks_eq_chunksFrom (words : List String) (chunkSize overlap : Nat)
    (hov : overlap < chunkSize) :
    splitIntoChunks words chunkSize overlap =
      some (chunksFrom words chunkSize (chunkSize - overlap) (Nat.sub_pos_of_lt hov) 0) := by
  unfold splitIntoChunks
  have h := chunkLoop_terminates words chunkSize overlap hov words.length 0 [] (by omega)
  simpa using h

lemma chunksFrom_get (words : List String) (chunkSize s : Nat) (hs : 0 < s) :
    ∀ j i (hj : j < (chunksFrom words chunkSize s hs i).length),
      ((chunksFrom words chunkSize s hs i).get ⟨j, hj⟩).start_idx = i + j * s ∧
      ((chunksFrom words chunkSize s hs i).get ⟨j, hj⟩).end_idx =
        min (i + j * s + chunkSize) words.length ∧
      i + j * s < words.length := by
  intro j
  induction j with
  | zero =>
    intro i hj
    by_cases hi : i < words.length
    · rw [List.get_of_eq (chunksFrom_cons words chunkSize s hs hi)]
      show (mkChunkAt words chunkSize i).start_idx = i + 0 * s ∧
        (mkChunkAt words chunkSize i).end_idx = min (i + 0 * s + chunkSize) words.length ∧
        i + 0 * s < words.length
      refine ⟨by simp [mkChunkAt], ?_, by omega⟩
      rw [mkChunkAt_end_idx words chunkSize hi]
      omega
    · rw [chunksFrom_nil words chunkSize s hs hi] at hj
      exact absurd hj (by simp)
  | succ n ih =>
    intro i hj
    by_cases hi : i < words.length
    · have hj2 : n < (chunksFrom words chunkSize s hs (i + s)).length := by
        have hl := hj
        rw [chunksFrom_cons words chunkSize s hs hi] at hl
        simpa using hl
      have hget : ((chunksFrom words chunkSize s hs i).get ⟨n + 1, hj⟩) =
          ((chunksFrom words chunkSize s hs (i + s)).get ⟨n, hj2⟩) := by
        rw [List.get_of_eq (chunksFrom_cons words chunkSize s hs hi)]
        rfl
      obtain ⟨h1, h2, h3⟩ := ih (i + s) hj2
      rw [hget, h1, h2]
      refine ⟨by rw [Nat.succ_mul]; ring, ?_, ?_⟩
      · rw [Nat.succ_mul]
        congr 1
        ring
      · rw [Nat.succ_mul]
        omega
    · rw [chunksFrom_nil words chunkSize s hs hi] at hj
      exact absurd hj (by simp)

lemma chunksFrom_lt_length (words : List String) (chunkSize s : Nat) (hs : 0 < s) :
    ∀ j i, i + j * s < words.length → j < (chunksFrom words chunkSize s hs i).length := by
  intro j
  induction j with
  | zero =>
    intro i h
    have hi : i < words.length := by omega
    rw [chunksFrom_cons words chunkSize s hs hi]
    simp
  | succ n ih =>
    intro i h
    have hi : i < words.length := by
      have h0 : i ≤ i + (n + 1) * s := Nat.le_add_right _ _
      omega
    rw [chunksFrom_cons words chunkSize s hs hi]
    simp only [List.length_cons]
    have h2 : (i + s) + n * s < words.length := by
      rw [Nat.succ_mul] at h
      omega
    exact Nat.succ_lt_succ (ih (i + s) h2)

lemma chunksFrom_covers (words : List String) (chunkSize s : Nat) (hs : 0 < s)
    (hscs : s ≤ chunkSize) (p : Nat) (hp : p < words.length) :
    ∃ c ∈ chunksFrom words chunkSize s hs 0, chunkCovers c p := by
  have hdm : s * (p / s) + p % s = p := Nat.div_add_mod p s
  have hmod : p % s < s := Nat.mod_lt _ hs
  have hmul : (p / s) * s = s * (p / s) := Nat.mul_comm _ _
  have hklen : 0 + (p / s) * s < words.length := by omega
  have hjlt := chunksFrom_lt_length words chunkSize s hs (p / s) 0 hklen
  obtain ⟨h1, h2, h3⟩ := chunksFrom_get words chunkSize s hs (p / s) 0 hjlt
  refine ⟨(chunksFrom words chunkSize s hs 0).get ⟨p / s, hjlt⟩,
    List.get_mem _ _ hjlt, ?_⟩
  rw [chunkCovers, h1, h2]
  omega

lemma chunksFrom_two_adjacent (words : List String) (chunkSize s : Nat) (hs : 0 < s)
    (hcs2 : chunkSize ≤ 2 * s) (p j j2 : Nat)
    (hj : j < (chunksFrom words chunkSize s hs 0).length)
    (hj1 : j + 1 < (chunksFrom words chunkSize s hs 0).length)
    (hj2 : j2 < (chunksFrom words chunkSize s hs 0).length)
    (hcj : chunkCovers ((chunksFrom words chunkSize s hs 0).get ⟨j, hj⟩) p)
    (hcj1 : chunkCovers ((chunksFrom words chunkSize s hs 0).get ⟨j + 1, hj1⟩) p) :
    chunkCovers ((chunksFrom words chunkSize s hs 0).get ⟨j2, hj2⟩) p ↔
      (j2 = j ∨ j2 = j + 1) := by
  obtain ⟨gj1, gj2, gj3⟩ := chunksFrom_get words chunkSize s hs j 0 hj
  obtain ⟨gk1, gk2, gk3⟩ := chunksFrom_get words chunkSize s hs (j + 1) 0 hj1
  obtain ⟨gm1, gm2, gm3⟩ := chunksFrom_get words chunkSize s hs j2 0 hj2
  rw [chunkCovers, gj1, gj2] at hcj
  rw [chunkCovers, gk1, gk2] at hcj1
  rw [chunkCovers, gm1, gm2]
  have hjs : (j + 1) * s = j * s + s := by rw [Nat.succ_mul]
  rw [hjs] at hcj1
  constructor
  · rintro ⟨hm1, hm2⟩
    by_contra hne
    push_neg at hne
    obtain ⟨hne1, hne2⟩ := hne
    rcases Nat.lt_or_ge j2 j with hlt | hge
    · have hle : j2 + 1 ≤ j := hlt
      have hmono := Nat.mul_le_mul_right s hle
      rw [Nat.succ_mul] at hmono
      omega
    · have hge2 : j + 2 ≤ j2 := by omega
      have hmono := Nat.mul_le_mul_right s hge2
      have he : (j + 2) * s = j * s + 2 * s := by ring
      rw [he] at hmono
      omega
  · rintro (he | he)
    · subst he
      exact hcj
    · subst he
      rw [hjs]
      exact hcj1

/-- C3 (amended): with `overlap < chunkSize` every token position of the input
is covered by at least one chunk; and when moreover `2 * overlap <= chunkSize`
(so that the overlap is at most the stride - the spec's default 500/50
satisfies this) a token covered by two consecutive chunks is covered by
exactly those two and no other.  Without the extra bound a token can lie in
three or more chunks (see the counterexample). -/
theorem splitIntoChunks_coverage (words : List String) (chunkSize overlap : Nat)
    (hov : overlap < chunkSize) :
    ∃ chunks, splitIntoChunks words chunkSize overlap = some chunks ∧
      (∀ p, p < words.length → ∃ c ∈ chunks, chunkCovers c p) ∧
      (2 * overlap ≤ chunkSize →
        ∀ p j (hj : j < chunks.length) (hj1 : j + 1 < chunks.length),
          chunkCovers (chunks.get ⟨j, hj⟩) p →
          chunkCovers (chunks.get ⟨j + 1, hj1⟩) p →
          ∀ j2 (hj2 : j2 < chunks.length),
            (chunkCovers (chunks.get ⟨j2, hj2⟩) p ↔ (j2 = j ∨ j2 = j + 1))) := by
  have hs : 0 < chunkSize - overlap := Nat.sub_pos_of_lt hov
  refine ⟨chunksFrom words chunkSize (chunkSize - overlap) hs 0,
    splitIntoChunks_eq_chunksFrom words chunkSize overlap hov, ?_, ?_⟩
  · intro p hp
    exact chunksFrom_covers words chunkSize (chunkSize - overlap) hs (by omega) p hp
  · intro h2ov p j hj hj1 hcj hcj1 j2 hj2
    exact chunksFrom_two_adjacent words chunkSize (chunkSize - overlap) hs (by omega)
      p j j2 hj hj1 hj2 hcj hcj1

/-- Witness for C3 at the spec's default parameters `chunkSize=500,
overlap=50` on a three-token text. -/
theorem splitIntoChunks_coverage_witness :
    ∃ chunks, splitIntoChunks ["t1", "t2", "t3"] 500 50 = some chunks ∧
      (∀ p, p < (["t1", "t2", "t3"] : List String).length → ∃ c ∈ chunks, chunkCovers c p) ∧
      (2 * 50 ≤ 500 →
        ∀ p j (hj : j < chunks.length) (hj1 : j + 1 < chunks.length),
          chunkCovers (chunks.get ⟨j, hj⟩) p →
          chunkCovers (chunks.get ⟨j + 1, hj1⟩) p →
          ∀ j2 (hj2 : j2 < chunks.length),
            (chunkCovers (chunks.get ⟨j2, hj2⟩) p ↔ (j2 = j ∨ j2 = j + 1))) :=
  splitIntoChunks_coverage ["t1", "t2", "t3"] 500 50 (by decide)

/-- Counterexample for C3 as stated: with `chunkSize=3, overlap=2` (which the
claim's `overlap < chunkSize` hypothesis allows) on five tokens, token
position 2 lies in the overlap of the two adjacent chunks `[0,3)` and `[1,4)`
yet is covered by three chunks - `[0,3)`, `[1,4)` and `[2,5)` - among them the
non-adjacent pair `[0,3)` and `[2,5)`. -/
theorem splitIntoChunks_token_in_three_chunks :
    ((splitIntoChunks ["a", "b", "c", "d", "e"] 3 2).map
      (fun chunks => chunks.countP (fun c => decide (chunkCovers c 2)))) = some 3 ∧
    ((splitIntoChunks ["a", "b", "c", "d", "e"] 3 2).map
      (fun chunks => chunks.map (fun c => (c.start_idx, c.end_idx)))) =
      some [(0, 3), (1, 4), (2, 5), (3, 5), (4, 5)] := by
  constructor <;> rfl

/-- C1: `loadModel` checks the cache and then awaits the backing load with no
per-key deduplication, so two concurrent calls for the same uncached key that
interleave at the `await` suspension points (schedule A,B,A,B,A,B) each invoke
the underlying load: two loads happen and the callers receive different
handles, the second insert overwriting the first.  A fully sequential schedule
(A,A,A,B) loads once and hands both callers the same handle, confirming that
the model agrees with the source in the race-free case. -/
theorem loadModel_concurrent_double_load :
    (runSched (modelPath "m" ModelType.embedding) [false, true, false, true, false, true]
      initCSys).loads = 2 ∧
    (runSched (modelPath "m" ModelType.embedding) [false, true, false, true, false, true]
      initCSys).pcA = TaskPC.returned 0 false ∧
    (runSched (modelPath "m" ModelType.embedding) [false, true, false, true, false, true]
      initCSys).pcB = TaskPC.returned 1 false ∧
    lookupCache (runSched (modelPath "m" ModelType.embedding)
      [false, true, false, true, false, true] initCSys).cache
      (modelPath "m" ModelType.embedding) =
      some { model := 1, lastUsed := 0, embeddingContext := some 1 } ∧
    (runSched (modelPath "m" ModelType.embedding) [false, false, false, true]
      initCSys).loads = 1 ∧
    (runSched (modelPath "m" ModelType.embedding) [false, false, false, true]
      initCSys).pcA = TaskPC.returned 0 false ∧
    (runSched (modelPath "m" ModelType.embedding) [false, false, false, true]
      initCSys).pcB = TaskPC.returned 0 true := by
  decide

lemma findSimilarChunks_nil (queryEmbedding : List ℝ) :
    findSimilarChunks queryEmbedding [] = Except.ok [] := by
  simp [findSimilarChunks, scoreChunks, List.mergeSort_nil]

lemma rerankChunks_nil (rankedScores : List ℝ) (topK : Nat) :
    rerankChunks [] rankedScores topK = [] := by
  simp [rerankChunks]

lemma combinedDescLe_trans (a b c : ChunkWithScore) :
    combinedDescLe a b = true → combinedDescLe b c = true → combinedDescLe a c = true := by
  simp only [combinedDescLe, decide_eq_true_eq]
  intro h1 h2
  exact le_trans h2 h1

lemma combinedDescLe_total (a b : ChunkWithScore) :
    (combinedDescLe a b || combinedDescLe b a) = true := by
  simp only [combinedDescLe, Bool.or_eq_true, decide_eq_true_eq]
  exact le_total _ _

lemma rerankDescLe_trans (a b c : ChunkWithScore) :
    rerankDescLe a b = true → rerankDescLe b c = true → rerankDescLe a c = true := by
  simp only [rerankDescLe, decide_eq_true_eq]
  intro h1 h2
  exact le_trans h2 h1

lemma rerankDescLe_total (a b : ChunkWithScore) :
    (rerankDescLe a b || rerankDescLe b a) = true := by
  simp only [rerankDescLe, Bool.or_eq_true, decide_eq_true_eq]
  exact le_total _ _

lemma dbDescLe_trans (a b c : DbScored) :
    dbDescLe a b = true → dbDescLe b c = true → dbDescLe a c = true := by
  simp only [dbDescLe, decide_eq_true_eq]
  intro h1 h2
  exact le_trans h2 h1

lemma dbDescLe_total (a b : DbScored) :
    (dbDescLe a b || dbDescLe b a) = true := by
  simp only [dbDescLe, Bool.or_eq_true, decide_eq_true_eq]
  exact le_total _ _

lemma zip_mem_get {α β : Type} (l : List α) (l2 : List β) (p : α × β)
    (h : p ∈ l.zip l2) :
    ∃ i, ∃ hi : i < l.length, ∃ hi2 : i < l2.length,
      p = (l.get ⟨i, hi⟩, l2.get ⟨i, hi2⟩) := by
  obtain ⟨n, hn⟩ := List.mem_iff_get.mp h
  have hlt := n.isLt
  have hzl : (l.zip l2).length = min l.length l2.length := List.length_zip l l2
  have hlen : (n : Nat) < min l.length l2.length := by omega
  refine ⟨n.val, lt_of_lt_of_le hlen (min_le_left _ _),
    lt_of_lt_of_le hlen (min_le_right _ _), ?_⟩
  rw [← hn, List.get_eq_getElem, List.getElem_zip, List.get_eq_getElem, List.get_eq_getElem]

lemma dbAttachRerank_length (results : List ChunkWithScore) (ranked : List ℝ) :
    (dbAttachRerank results ranked).length = results.length := by
  induction results generalizing ranked with
  | nil => simp [dbAttachRerank]
  | cons c cs ih =>
    cases ranked with
    | nil => simpa [dbAttachRerank] using ih []
    | cons r rs => simpa [dbAttachRerank] using ih rs

lemma dbAttachRerank_get (results : List ChunkWithScore) (ranked : List ℝ) :
    ∀ i (hi : i < (dbAttachRerank results ranked).length) (hi2 : i < results.length),
      ((dbAttachRerank results ranked).get ⟨i, hi⟩).toChunk =
        (results.get ⟨i, hi2⟩).toChunk ∧
      ((dbAttachRerank results ranked).get ⟨i, hi⟩).scores.combined =
        (results.get ⟨i, hi2⟩).scores.combined ∧
      ((dbAttachRerank results ranked).get ⟨i, hi⟩).scores.reranked =
        (ranked.get? i).map JSNum.finite := by
  induction results generalizing ranked with
  | nil => intro i hi hi2; exact absurd hi2 (by simp)
  | cons c cs ih =>
    intro i hi hi2
    cases ranked with
    | nil =>
      cases i with
      | zero => exact ⟨rfl, rfl, rfl⟩
      | succ n =>
        have hi' : n < (dbAttachRerank cs []).length := by
          rw [dbAttachRerank_length]
          simpa using hi2
        exact ih [] n hi' (by simpa using hi2)
    | cons r rs =>
      cases i with
      | zero => exact ⟨rfl, rfl, rfl⟩
      | succ n =>
        have hi' : n < (dbAttachRerank cs rs).length := by
          rw [dbAttachRerank_length]
          simpa using hi2
        exact ih rs n hi' (by simpa using hi2)

lemma sumSq_nonneg (a : List ℝ) : 0 ≤ sumSq a := by
  unfold sumSq
  induction a with
  | nil => simp
  | cons x xs ih => simpa using add_nonneg (mul_self_nonneg x) ih

lemma sumSq_eq_zero_iff (a : List ℝ) : sumSq a = 0 ↔ ∀ x ∈ a, x = 0 := by
  induction a with
  | nil => simp [sumSq]
  | cons x xs ih =>
    have hx : 0 ≤ x * x := mul_self_nonneg x
    have hs : 0 ≤ sumSq xs := sumSq_nonneg xs
    constructor
    · intro h y hy
      have hsum : x * x + sumSq xs = 0 := by simpa [sumSq] using h
      have h1 : x * x = 0 := by linarith
      have h2 : sumSq xs = 0 := by linarith
      rcases List.mem_cons.mp hy with h | h
      · subst h; exact mul_self_eq_zero.mp h1
      · exact (ih.mp h2) y h
    · intro h
      have h1 : x = 0 := h x (List.mem_cons_self x xs)
      have h2 : sumSq xs = 0 := ih.mpr fun y hy => h y (List.mem_cons_of_mem x hy)
      simp [sumSq, h1]
      simpa [sumSq] using h2

lemma dotProduct_zero_left (a b : List ℝ) (ha : ∀ x ∈ a, x = 0) :
    dotProduct a b = 0 := by
  induction a generalizing b with
  | nil => simp [dotProduct]
  | cons x xs ih =>
    cases b with
    | nil => simp [dotProduct]
    | cons y ys =>
      have hx : x = 0 := ha x (List.mem_cons_self x xs)
      have hrest : dotProduct xs ys = 0 :=
        ih ys fun z hz => ha z (List.mem_cons_of_mem x hz)
      simp [dotProduct, hx]
      simpa [dotProduct] using hrest

lemma jsAdd_nan_left (x : JSNum) : jsAdd JSNum.nan x = JSNum.nan := by
  cases x <;> rfl

lemma jsMul_nan (c : ℝ) : jsMul c JSNum.nan = JSNum.nan := rfl

/-- C6: `cosineSimilarity` throws its length error exactly when the vector
lengths differ (it neither truncates nor pads), and on equal lengths with
nonzero norms it returns the finite value
`dot(a,b) / (sqrt(sumSq a) * sqrt(sumSq b))`. -/
theorem cosineSimilarity_dimension_mismatch (a b : List ℝ) :
    ((∃ e, cosineSimilarity a b = Except.error e) ↔ a.length ≠ b.length) ∧
    (a.length = b.length →
      Real.sqrt (sumSq a) * Real.sqrt (sumSq b) ≠ 0 →
      cosineSimilarity a b =
        Except.ok (JSNum.finite
          (dotProduct a b / (Real.sqrt (sumSq a) * Real.sqrt (sumSq b))))) := by
  constructor
  · constructor
    · rintro ⟨e, he⟩
      by_contra hlen
      have hlen2 : a.length = b.length := by omega
      simp [cosineSimilarity, hlen2] at he
    · intro hne
      exact ⟨"Vectors must have the same length", by simp [cosineSimilarity, hne]⟩
  · intro hlen hden
    simp [cosineSimilarity, hlen, jsDiv, hden]

/-- Witness for C6: two equal-length unit vectors give the finite quotient. -/
theorem cosineSimilarity_dimension_mismatch_witness :
    cosineSimilarity [(1 : ℝ), 0] [0, 1] = Except.ok (JSNum.finite 0) := by
  have hs1 : sumSq [(1 : ℝ), 0] = 1 := by norm_num [sumSq]
  have hs2 : sumSq [(0 : ℝ), 1] = 1 := by norm_num [sumSq]
  have hd : dotProduct [(1 : ℝ), 0] [0, 1] = 0 := by norm_num [dotProduct]
  have h := (cosineSimilarity_dimension_mismatch [(1 : ℝ), 0] [0, 1]).2 (by simp)
    (by rw [hs1, hs2, Real.sqrt_one]; norm_num)
  rw [h, hd, hs1, hs2, Real.sqrt_one]
  norm_num

/-- C10: for a zero query vector the division of `cosineSimilarity` is
unguarded: no error is thrown, the result is the NaN of `0/0` (the numerator
and the norm product both vanish), and via `findSimilarChunks`' per-chunk
scoring that NaN propagates into the content score and the combined score. -/
theorem cosineSimilarity_zero_vector_nan (a b : List ℝ)
    (ha : ∀ x ∈ a, x = 0) (hlen : a.length = b.length) :
    cosineSimilarity a b = Except.ok JSNum.nan ∧
    (∀ ch sc, ch.content_embedding = some b → scoreChunk a ch = Except.ok sc →
      sc.scores.content = JSNum.nan ∧ sc.scores.combined = JSNum.nan) := by
  have hzero : sumSq a = 0 := (sumSq_eq_zero_iff a).mpr ha
  have hdot : dotProduct a b = 0 := dotProduct_zero_left a b ha
  have hcos : cosineSimilarity a b = Except.ok JSNum.nan := by
    simp [cosineSimilarity, hlen, jsDiv, hzero, hdot]
  refine ⟨hcos, ?_⟩
  intro ch sc hce hsc
  cases hctx : ch.context_embedding with
  | none =>
    simp only [scoreChunk, hce, hcos, hctx] at hsc
    cases hsc
    exact ⟨rfl, rfl⟩
  | some xe =>
    simp only [scoreChunk, hce, hcos, hctx] at hsc
    cases hx : cosineSimilarity a xe with
    | error e => rw [hx] at hsc; cases hsc
    | ok v =>
      rw [hx] at hsc
      cases hsc
      exact ⟨rfl, by simp [jsMul_nan, jsAdd_nan_left]⟩

/-- Witness for C10: the zero vector against `[1, 2]` yields NaN, not an
error. -/
theorem cosineSimilarity_zero_vector_nan_witness :
    cosineSimilarity [(0 : ℝ), 0] [1, 2] = Except.ok JSNum.nan :=
  (cosineSimilarity_zero_vector_nan [(0 : ℝ), 0] [1, 2] (by simp) rfl).1

/-- C9: when the key is uncached and any awaited step of the load path fails -
the backing `llama.loadModel` or the kind-specific context creation - the
thrown error is surfaced unchanged to the caller and the cache is exactly the
input cache: no entry (half-initialized or otherwise) is left behind and no
retry happens, because `loadedModels.set` only runs after every step has
succeeded. -/
theorem loadModel_failed_load_leaves_cache_unchanged
    (cache : List (String × ModelContextM)) (now : Nat) (modelName : String)
    (ty : ModelType) (lo ec rc : Except String Nat)
    (hmiss : lookupCache cache (modelPath modelName ty) = none) :
    (∀ e, lo = Except.error e →
      loadModel cache now modelName ty lo ec rc = (Except.error e, cache)) ∧
    (∀ h e, lo = Except.ok h → ty = ModelType.embedding → ec = Except.error e →
      loadModel cache now modelName ty lo ec rc = (Except.error e, cache)) ∧
    (∀ h e, lo = Except.ok h → ty = ModelType.reranker → rc = Except.error e →
      loadModel cache now modelName ty lo ec rc = (Except.error e, cache)) := by
  refine ⟨?_, ?_, ?_⟩
  · intro e he; subst he; simp [loadModel, hmiss]
  · intro h e hlo hty hec; subst hlo; subst hty; subst hec; simp [loadModel, hmiss]
  · intro h e hlo hty hrc; subst hlo; subst hty; subst hrc; simp [loadModel, hmiss]

/-- Witness for C9: a failing backing load on an empty cache surfaces the
error and leaves the cache empty. -/
theorem loadModel_failed_load_leaves_cache_unchanged_witness :
    loadModel [] 0 "m" ModelType.embedding (Except.error "ENOENT") (Except.ok 0)
      (Except.ok 0) = (Except.error "ENOENT", []) :=
  (loadModel_failed_load_leaves_cache_unchanged [] 0 "m" ModelType.embedding
    (Except.error "ENOENT") (Except.ok 0) (Except.ok 0) rfl).1 "ENOENT" rfl

/-- C4 (amended): in the in-memory path, `rerankChunks` assigns the reranker's
output score at index `i` to the Stage-1 chunk at input index `i`, re-sorts
descending by reranked score and truncates to `topK`; in the persisted path,
`handleSearchChunks` also attaches the reranker's scores positionally, but
keeps the Stage-1 (combined-score) order: every output position holds the
input chunk of the same position, with no re-sort and no further truncation. -/
theorem rerank_positional (chunks : List ChunkWithScore) (rankedScores : List ℝ)
    (topK : Nat) (hlen : rankedScores.length = chunks.length) :
    ((rerankChunks chunks rankedScores topK).length = min topK chunks.length) ∧
    List.Pairwise (fun a b => jsOrdKey (rerankKeyOf b) ≤ jsOrdKey (rerankKeyOf a))
      (rerankChunks chunks rankedScores topK) ∧
    (∀ c ∈ rerankChunks chunks rankedScores topK, ∃ i, ∃ hi : i < chunks.length,
      ∃ hi2 : i < rankedScores.length,
        c = attachReranked (chunks.get ⟨i, hi⟩) (rankedScores.get ⟨i, hi2⟩)) ∧
    (∀ (results : List ChunkWithScore) (ranked2 : List ℝ),
      (dbAttachRerank results ranked2).length = results.length) ∧
    (∀ (results : List ChunkWithScore) (ranked2 : List ℝ) i
      (hi : i < (dbAttachRerank results ranked2).length) (hi2 : i < results.length),
        ((dbAttachRerank results ranked2).get ⟨i, hi⟩).toChunk =
          (results.get ⟨i, hi2⟩).toChunk ∧
        ((dbAttachRerank results ranked2).get ⟨i, hi⟩).scores.combined =
          (results.get ⟨i, hi2⟩).scores.combined ∧
        ((dbAttachRerank results ranked2).get ⟨i, hi⟩).scores.reranked =
          (ranked2.get? i).map JSNum.finite) := by
  refine ⟨?_, ?_, ?_, dbAttachRerank_length, dbAttachRerank_get⟩
  · unfold rerankChunks
    rw [List.length_take, List.length_mergeSort, List.length_map, List.length_zip, hlen]
    simp
  · unfold rerankChunks
    have hp := List.sorted_mergeSort rerankDescLe_trans rerankDescLe_total
      ((chunks.zip rankedScores).map (fun p => attachReranked p.1 p.2))
    have hp2 := hp.sublist (List.take_sublist topK _)
    exact hp2.imp (fun hab => by simpa [rerankDescLe, decide_eq_true_eq] using hab)
  · intro c hc
    have h1 := List.mem_of_mem_take hc
    have h2 := List.mem_mergeSort.mp h1
    obtain ⟨p, hp, hpa⟩ := List.mem_map.mp h2
    obtain ⟨i, hi, hi2, hpe⟩ := zip_mem_get chunks rankedScores p hp
    exact ⟨i, hi, hi2, by rw [← hpa, hpe]⟩

/-- Witness for C4 on a one-element candidate list. -/
theorem rerank_positional_witness :
    (rerankChunks
      [⟨{ content := "a" }, { content := JSNum.finite 1, combined := JSNum.finite 1 }⟩]
      [(0.7 : ℝ)] 1).length =
      min 1 ([⟨{ content := "a" },
        { content := JSNum.finite 1, combined := JSNum.finite 1 }⟩] :
          List ChunkWithScore).length :=
  (rerank_positional
    [⟨{ content := "a" }, { content := JSNum.finite 1, combined := JSNum.finite 1 }⟩]
    [(0.7 : ℝ)] 1 rfl).1

/-- Counterexample for C4 as stated: in the persisted path the final sequence
is not re-sorted by reranked score.  Two stored chunks arrive from Stage 1 in
combined order 0.9, 0.5; the reranker returns 0.2 for the first and 0.8 for
the second; `handleSearchChunks` returns them still in Stage-1 order, so
position 0 carries the smaller reranked score than position 1. -/
theorem handleSearchChunks_rerank_not_resorted :
    ∃ h0 : 0 < (dbAttachRerank
      [⟨{ content := "a" }, { content := JSNum.finite 0.9, combined := JSNum.finite 0.9 }⟩,
       ⟨{ content := "b" }, { content := JSNum.finite 0.5, combined := JSNum.finite 0.5 }⟩]
      [(0.2 : ℝ), 0.8]).length,
    ∃ h1 : 1 < (dbAttachRerank
      [⟨{ content := "a" }, { content := JSNum.finite 0.9, combined := JSNum.finite 0.9 }⟩,
       ⟨{ content := "b" }, { content := JSNum.finite 0.5, combined := JSNum.finite 0.5 }⟩]
      [(0.2 : ℝ), 0.8]).length,
      ((dbAttachRerank
        [⟨{ content := "a" }, { content := JSNum.finite 0.9, combined := JSNum.finite 0.9 }⟩,
         ⟨{ content := "b" }, { content := JSNum.finite 0.5, combined := JSNum.finite 0.5 }⟩]
        [(0.2 : ℝ), 0.8]).get ⟨0, h0⟩).scores.reranked = some (JSNum.finite 0.2) ∧
      ((dbAttachRerank
        [⟨{ content := "a" }, { content := JSNum.finite 0.9, combined := JSNum.finite 0.9 }⟩,
         ⟨{ content := "b" }, { content := JSNum.finite 0.5, combined := JSNum.finite 0.5 }⟩]
        [(0.2 : ℝ), 0.8]).get ⟨1, h1⟩).scores.reranked = some (JSNum.finite 0.8) ∧
      jsOrdKey (rerankKeyOf ((dbAttachRerank
        [⟨{ content := "a" }, { content := JSNum.finite 0.9, combined := JSNum.finite 0.9 }⟩,
         ⟨{ content := "b" }, { content := JSNum.finite 0.5, combined := JSNum.finite 0.5 }⟩]
        [(0.2 : ℝ), 0.8]).get ⟨0, h0⟩)) <
      jsOrdKey (rerankKeyOf ((dbAttachRerank
        [⟨{ content := "a" }, { content := JSNum.finite 0.9, combined := JSNum.finite 0.9 }⟩,
         ⟨{ content := "b" }, { content := JSNum.finite 0.5, combined := JSNum.finite 0.5 }⟩]
        [(0.2 : ℝ), 0.8]).get ⟨1, h1⟩)) := by
  refine ⟨by simp [dbAttachRerank], by simp [dbAttachRerank], rfl, rfl, ?_⟩
  show jsOrdKey (rerankKeyOf
    ⟨{ content := "a" },
      { content := JSNum.finite 0.9, combined := JSNum.finite 0.9,
        reranked := some (JSNum.finite 0.2) }⟩) <
    jsOrdKey (rerankKeyOf
    ⟨{ content := "b" },
      { content := JSNum.finite 0.5, combined := JSNum.finite 0.5,
        reranked := some (JSNum.finite 0.8) }⟩)
  show ((0.2 : ℝ) : EReal) < ((0.8 : ℝ) : EReal)
  exact_mod_cast (by norm_num : (0.2 : ℝ) < 0.8)

/-- C5 (amended): with an empty candidate list the in-memory query pipeline
returns an empty result sequence, but it still acquires the embedding model
(the query is embedded before candidates are examined), and also the reranker
model when reranking is requested - contrary to the spec's
"without invoking any resource". -/
theorem handleQueryChunks_empty_candidates (query em : String) (rm : Option String)
    (topK : Nat) (shouldRerank : Bool) (qe rs : List ℝ)
    (hq : query ≠ "") (he : em ≠ "") :
    handleQueryChunks query [] em rm topK shouldRerank true qe true rs =
      (Except.ok [],
        (em, ModelType.embedding) ::
          (match shouldRerank, rm with
          | true, some r => [(r, ModelType.reranker)]
          | _, _ => [])) := by
  have hnil : findSimilarChunks qe [] = Except.ok [] := findSimilarChunks_nil qe
  match shouldRerank, rm with
  | true, some r => simp [handleQueryChunks, hq, he, hnil, rerankChunks_nil]
  | true, none => simp [handleQueryChunks, hq, he, hnil]
  | false, some r => simp [handleQueryChunks, hq, he, hnil]
  | false, none => simp [handleQueryChunks, hq, he, hnil]

/-- Witness for C5: concrete empty-candidate request with reranking on. -/
theorem handleQueryChunks_empty_candidates_witness :
    handleQueryChunks "q" [] "m" (some "r") 4 true true [] true [] =
      (Except.ok [], [("m", ModelType.embedding), ("r", ModelType.reranker)]) :=
  handleQueryChunks_empty_candidates "q" "m" (some "r") 4 true [] []
    (by decide) (by decide)

/-- Counterexample for C5 as stated: the empty-candidate request does acquire
model resources - the embedding model and (reranking requested) the reranker -
even though its result list is empty. -/
theorem handleQueryChunks_empty_still_acquires :
    (handleQueryChunks "q" [] "m" (some "r") 4 true true [] true []).1 = Except.ok [] ∧
    (handleQueryChunks "q" [] "m" (some "r") 4 true true [] true []).2 =
      [("m", ModelType.embedding), ("r", ModelType.reranker)] ∧
    (handleQueryChunks "q" [] "m" (some "r") 4 true true [] true []).2 ≠ [] := by
  have h1 : ¬(("q" : String) = "" ∨ ("m" : String) = "") := by decide
  refine ⟨?_, ?_, ?_⟩ <;>
    simp [handleQueryChunks, h1, findSimilarChunks_nil, rerankChunks_nil]

lemma scoreChunk_ok_shape (q : List ℝ) (ch : Chunk) (sc : ChunkWithScore)
    (h : scoreChunk q ch = Except.ok sc) :
    (sc.scores.context = none ∧ sc.scores.combined = sc.scores.content) ∨
    (∃ x, sc.scores.context = some x ∧
      sc.scores.combined = jsAdd (jsMul 0.6 sc.scores.content) (jsMul 0.4 x)) := by
  cases hce : ch.content_embedding with
  | none => simp [scoreChunk, hce] at h
  | some ce =>
    cases hcos : cosineSimilarity q ce with
    | error e => simp [scoreChunk, hce, hcos] at h
    | ok contentScore =>
      cases hctx : ch.context_embedding with
      | none =>
        simp only [scoreChunk, hce, hcos, hctx] at h
        have h2 := Except.ok.inj h
        subst h2
        left
        exact ⟨rfl, rfl⟩
      | some xe =>
        cases hcx : cosineSimilarity q xe with
        | error e => simp [scoreChunk, hce, hcos, hctx, hcx] at h
        | ok contextScore =>
          simp only [scoreChunk, hce, hcos, hctx, hcx] at h
          have h2 := Except.ok.inj h
          subst h2
          right
          exact ⟨contextScore, rfl, rfl⟩

lemma scoreChunks_mem (q : List ℝ) (chunks : List Chunk) :
    ∀ out, scoreChunks q chunks = Except.ok out →
      ∀ sc ∈ out, ∃ ch ∈ chunks, scoreChunk q ch = Except.ok sc := by
  induction chunks with
  | nil =>
    intro out h
    simp only [scoreChunks] at h
    have h2 := Except.ok.inj h
    subst h2
    simp
  | cons c cs ih =>
    intro out h
    simp only [scoreChunks] at h
    cases h1 : scoreChunk q c with
    | error e => rw [h1] at h; cases h
    | ok sc1 =>
      rw [h1] at h
      cases h2 : scoreChunks q cs with
      | error e => rw [h2] at h; cases h
      | ok rest =>
        rw [h2] at h
        have h3 := Except.ok.inj h
        subst h3
        intro sc hsc
        rcases List.mem_cons.mp hsc with he | he
        · exact ⟨c, List.mem_cons_self _ _, he ▸ h1⟩
        · obtain ⟨ch, hch, hok⟩ := ih rest h2 sc he
          exact ⟨ch, List.mem_cons_of_mem _ hch, hok⟩

lemma scoreChunks_length (q : List ℝ) (chunks : List Chunk) :
    ∀ out, scoreChunks q chunks = Except.ok out → out.length = chunks.length := by
  induction chunks with
  | nil =>
    intro out h
    simp only [scoreChunks] at h
    have h2 := Except.ok.inj h
    subst h2
    rfl
  | cons c cs ih =>
    intro out h
    simp only [scoreChunks] at h
    cases h1 : scoreChunk q c with
    | error e => rw [h1] at h; cases h
    | ok sc1 =>
      rw [h1] at h
      cases h2 : scoreChunks q cs with
      | error e => rw [h2] at h; cases h
      | ok rest =>
        rw [h2] at h
        have h3 := Except.ok.inj h
        subst h3
        simp [ih rest h2]

lemma dotProduct_comm (a b : List ℝ) : dotProduct a b = dotProduct b a := by
  unfold dotProduct
  induction a generalizing b with
  | nil => cases b <;> simp
  | cons x xs ih =>
    cases b with
    | nil => simp
    | cons y ys =>
      simp only [List.zipWith_cons_cons, List.sum_cons]
      rw [mul_comm x y, ih ys]

lemma dbStage1_mem (q : List ℝ) (rows : List DbRow) (k : Nat) (t : ℝ)
    (f : Option String) (r : DbScored)
    (h : r ∈ handleSearchChunksStage1Rows q rows k t f) :
    ∃ row ∈ rows, r = dbScore q row ∧ t ≤ r.combined_score := by
  unfold handleSearchChunksStage1Rows at h
  have h1 := List.mem_of_mem_take h
  have h2 := List.mem_mergeSort.mp h1
  obtain ⟨hmem, hpred⟩ := List.mem_filter.mp h2
  obtain ⟨row, hrow, hmap⟩ := List.mem_map.mp hmem
  rw [Bool.and_eq_true] at hpred
  have hth : t ≤ r.combined_score := by
    have hb := hpred.1
    rwa [decide_eq_true_eq] at hb
  exact ⟨row, hrow, hmap.symm, hth⟩

/-- C7: every chunk scored by `findSimilarChunks` carries
`combined = 0.6 * content + 0.4 * context` when a context score is present
(on finite scores this is the literal real weighting) and `combined = content`
when it is absent; and every row returned by the persisted Stage-1 query
satisfies `combined_score = 0.6 * content_score + 0.4 * context_score`. -/
theorem combined_score_weighting (q : List ℝ) (chunks : List Chunk)
    (out : List ChunkWithScore) (h : findSimilarChunks q chunks = Except.ok out) :
    (∀ sc ∈ out,
      (sc.scores.context = none ∧ sc.scores.combined = sc.scores.content) ∨
      (∃ x, sc.scores.context = some x ∧
        sc.scores.combined = jsAdd (jsMul 0.6 sc.scores.content) (jsMul 0.4 x))) ∧
    (∀ c y : ℝ, jsAdd (jsMul 0.6 (JSNum.finite c)) (jsMul 0.4 (JSNum.finite y)) =
      JSNum.finite (0.6 * c + 0.4 * y)) ∧
    (∀ (rows : List DbRow) (top_k : Nat) (threshold : ℝ) (folder : Option String)
      (r : DbScored), r ∈ handleSearchChunksStage1Rows q rows top_k threshold folder →
        r.combined_score = 0.6 * r.content_score + 0.4 * r.context_score) := by
  refine ⟨?_, fun c y => rfl, ?_⟩
  · intro sc hsc
    cases h1 : scoreChunks q chunks with
    | error e => unfold findSimilarChunks at h; rw [h1] at h; cases h
    | ok scored =>
      unfold findSimilarChunks at h
      rw [h1] at h
      have h2 := Except.ok.inj h
      subst h2
      have h3 := List.mem_mergeSort.mp hsc
      obtain ⟨ch, hch, hok⟩ := scoreChunks_mem q chunks scored h1 sc h3
      exact scoreChunk_ok_shape q ch sc hok
  · intro rows k t f r hr
    obtain ⟨row, hrow, hre, hth⟩ := dbStage1_mem q rows k t f r hr
    subst hre
    rfl

/-- Witness for C7: a one-candidate query (hypothesis discharged by computing
the pipeline), specialized to the finite weighting instance. -/
theorem combined_score_weighting_witness :
    jsAdd (jsMul 0.6 (JSNum.finite 1)) (jsMul 0.4 (JSNum.finite 1)) =
      JSNum.finite (0.6 * 1 + 0.4 * 1) :=
  (combined_score_weighting [] [{ content := "c", content_embedding := some [] }]
    [⟨{ content := "c", content_embedding := some [] },
      { content := JSNum.nan, combined := JSNum.nan }⟩] (by
        have h1 : cosineSimilarity ([] : List ℝ) [] = Except.ok JSNum.nan := by
          simp [cosineSimilarity, jsDiv, sumSq, dotProduct]
        simp [findSimilarChunks, scoreChunks, scoreChunk, h1,
          List.mergeSort_singleton])).2.1 1 1

/-- C8 (amended): the two Stage-1 paths agree on the 0.6/0.4 weighting (a
candidate with both embeddings gets the same finite combined score in both
paths), and both return their results ordered descending by combined score
and truncated to the requested top-k - the store path by its ORDER BY/LIMIT,
the in-memory path by its sort and `slice(0, topK)`; but the threshold
semantics exists only in the store path: the store path validates the
threshold (rejecting values outside `[0, 1]`), keeps only rows with
`combined_score >= threshold` and returns at most `top_k` rows, while the
in-memory Stage 1 applies no threshold at all - it keeps every candidate
regardless of score. -/
theorem stage1_semantics (q : List ℝ) (rows : List DbRow) (top_k : Nat)
    (threshold : ℝ) (folder : Option String) :
    ((∃ e, handleSearchChunksStage1 q rows top_k threshold folder = Except.error e) ↔
      (threshold < 0 ∨ 1 < threshold)) ∧
    (∀ (ch : Chunk) (row : DbRow) (ce xe : List ℝ) (sc : ChunkWithScore),
      ch.content_embedding = some ce → ch.context_embedding = some xe →
      row.content_embedding = ce → row.context_embedding = xe →
      Real.sqrt (sumSq q) * Real.sqrt (sumSq ce) ≠ 0 →
      Real.sqrt (sumSq q) * Real.sqrt (sumSq xe) ≠ 0 →
      scoreChunk q ch = Except.ok sc →
      sc.scores.combined = JSNum.finite ((dbScore q row).combined_score)) ∧
    (∀ r ∈ handleSearchChunksStage1Rows q rows top_k threshold folder,
      threshold ≤ r.combined_score) ∧
    List.Pairwise (fun a b => b.combined_score ≤ a.combined_score)
      (handleSearchChunksStage1Rows q rows top_k threshold folder) ∧
    (handleSearchChunksStage1Rows q rows top_k threshold folder).length ≤ top_k ∧
    (∀ (chunks : List Chunk) (out : List ChunkWithScore) (topK : Nat),
      findSimilarChunks q chunks = Except.ok out →
        (out.take topK).length = min topK chunks.length ∧
        List.Pairwise
          (fun a b => jsOrdKey b.scores.combined ≤ jsOrdKey a.scores.combined)
          (out.take topK)) := by
  refine ⟨?_, ?_, ?_, ?_, ?_, ?_⟩
  · constructor
    · rintro ⟨e, he⟩
      by_contra hrange
      push_neg at hrange
      have hval : ¬ (threshold < 0 ∨ 1 < threshold) := by
        push_neg
        exact hrange
      simp [handleSearchChunksStage1, hval] at he
    · intro hrange
      exact ⟨"Threshold must be a number between 0 and 1",
        by simp [handleSearchChunksStage1, hrange]⟩
  · intro ch row ce xe sc hce hctx hr1 hr2 hden1 hden2 hsc
    by_cases hL1 : q.length = ce.length
    · by_cases hL2 : q.length = xe.length
      · have hcos1 : cosineSimilarity q ce = Except.ok (JSNum.finite
            (dotProduct q ce / (Real.sqrt (sumSq q) * Real.sqrt (sumSq ce)))) := by
          simp [cosineSimilarity, hL1, jsDiv, hden1]
        have hcos2 : cosineSimilarity q xe = Except.ok (JSNum.finite
            (dotProduct q xe / (Real.sqrt (sumSq q) * Real.sqrt (sumSq xe)))) := by
          simp [cosineSimilarity, hL2, jsDiv, hden2]
        simp only [scoreChunk, hce, hctx, hcos1, hcos2] at hsc
        have h2 := Except.ok.inj hsc
        subst h2
        show JSNum.finite _ = JSNum.finite _
        rw [JSNum.finite.injEq]
        simp only [dbScore, hr1, hr2, cosSimR]
        rw [dotProduct_comm q ce, dotProduct_comm q xe,
          mul_comm (Real.sqrt (sumSq q)) (Real.sqrt (sumSq ce)),
          mul_comm (Real.sqrt (sumSq q)) (Real.sqrt (sumSq xe))]
      · have hcosE : cosineSimilarity q xe = Except.error
            "Vectors must have the same length" := by
          simp [cosineSimilarity, hL2]
        have hcosOk : cosineSimilarity q ce = Except.ok
            (jsDiv (dotProduct q ce) (Real.sqrt (sumSq q) * Real.sqrt (sumSq ce))) := by
          simp [cosineSimilarity, hL1]
        simp [scoreChunk, hce, hctx, hcosOk, hcosE] at hsc
    · have hcosE : cosineSimilarity q ce = Except.error
          "Vectors must have the same length" := by
        simp [cosineSimilarity, hL1]
      simp [scoreChunk, hce, hcosE] at hsc
  · intro r hr
    exact (dbStage1_mem q rows top_k threshold folder r hr).choose_spec.2.2
  · unfold handleSearchChunksStage1Rows
    have hp := List.sorted_mergeSort dbDescLe_trans dbDescLe_total
      ((rows.map (dbScore q)).filter
        (fun s => decide (threshold ≤ s.combined_score) && folderMatches folder s.row))
    have hp2 := hp.sublist (List.take_sublist top_k _)
    exact hp2.imp (fun hab => by simpa [dbDescLe, decide_eq_true_eq] using hab)
  · exact List.length_take_le _ _
  · intro chunks out topK h
    cases h1 : scoreChunks q chunks with
    | error e => unfold findSimilarChunks at h; rw [h1] at h; cases h
    | ok scored =>
      unfold findSimilarChunks at h
      rw [h1] at h
      have h2 := Except.ok.inj h
      subst h2
      constructor
      · rw [List.length_take, List.length_mergeSort, scoreChunks_length q chunks scored h1]
      · have hp := List.sorted_mergeSort combinedDescLe_trans combinedDescLe_total scored
        have hp2 := hp.sublist (List.take_sublist topK _)
        exact hp2.imp (fun hab => by simpa [combinedDescLe, decide_eq_true_eq] using hab)

/-- Witness for C8: the in-memory Stage 1 on an empty candidate list, with the
pipeline hypothesis discharged concretely. -/
theorem stage1_semantics_witness :
    (([] : List ChunkWithScore).take 5).length = min 5 ([] : List Chunk).length ∧
    List.Pairwise
      (fun a b => jsOrdKey b.scores.combined ≤ jsOrdKey a.scores.combined)
      (([] : List ChunkWithScore).take 5) :=
  (stage1_semantics [] [] 0 0 none).2.2.2.2.2 [] [] 5 (findSimilarChunks_nil [])

/-- Counterexample for C8 as stated: the two Stage-1 paths are not
behaviorally interchangeable.  For the query embedding `[1, 0]` and a single
candidate whose content and context embeddings are `[-1, 0]` (combined score
`-1`), the in-memory Stage 1 returns the candidate (it has no threshold),
while the store-delegated Stage 1 with its default threshold `0.0` filters it
out and returns nothing, at the same `top_k = 3`. -/
theorem stage1_not_interchangeable :
    (∃ out, findSimilarChunks [(1 : ℝ), 0]
        [{ content := "c", content_embedding := some [-1, 0],
           context_embedding := some [-1, 0] }] = Except.ok out ∧
      (out.take 3).length = 1) ∧
    handleSearchChunksStage1Rows [(1 : ℝ), 0]
      [{ content := "c", context := "c", content_embedding := [-1, 0],
         context_embedding := [-1, 0] }] 3 0 none = [] := by
  have hd1 : dotProduct [(1 : ℝ), 0] [-1, 0] = -1 := by norm_num [dotProduct]
  have hd2 : dotProduct [(-1 : ℝ), 0] [1, 0] = -1 := by norm_num [dotProduct]
  have hs1 : sumSq [(1 : ℝ), 0] = 1 := by norm_num [sumSq]
  have hs2 : sumSq [(-1 : ℝ), 0] = 1 := by norm_num [sumSq]
  have hcos : cosineSimilarity [(1 : ℝ), 0] [-1, 0] =
      Except.ok (JSNum.finite (-1)) := by
    simp [cosineSimilarity, hd1, hs1, hs2, jsDiv, Real.sqrt_one]
  constructor
  · have hsc : scoreChunk [(1 : ℝ), 0]
        { content := "c", content_embedding := some [-1, 0],
          context_embedding := some [-1, 0] } =
        Except.ok
          ⟨{ content := "c", content_embedding := some [-1, 0],
             context_embedding := some [-1, 0] },
           { content := JSNum.finite (-1), context := some (JSNum.finite (-1)),
             combined := JSNum.finite (-1) }⟩ := by
      simp [scoreChunk, hcos, jsAdd, jsMul]
      norm_num
    refine
      ⟨[⟨{ content := "c", content_embedding := some [-1, 0],
           context_embedding := some [-1, 0] },
         { content := JSNum.finite (-1), context := some (JSNum.finite (-1)),
           combined := JSNum.finite (-1) }⟩], ?_, rfl⟩
    simp [findSimilarChunks, scoreChunks, hsc, List.mergeSort_singleton]
  · have hcsr : cosSimR [(-1 : ℝ), 0] [1, 0] = -1 := by
      simp [cosSimR, hd2, hs1, hs2, Real.sqrt_one]
    have hdbs : (dbScore [(1 : ℝ), 0]
        { content := "c", context := "c", content_embedding := [-1, 0],
          context_embedding := [-1, 0] }).combined_score = -1 := by
      simp [dbScore, hcsr]
      norm_num
    have hpred : (decide ((0 : ℝ) ≤ (dbScore [(1 : ℝ), 0]
        { content := "c", context := "c", content_embedding := [-1, 0],
          context_embedding := [-1, 0] }).combined_score) &&
        folderMatches none (dbScore [(1 : ℝ), 0]
        { content := "c", context := "c", content_embedding := [-1, 0],
          context_embedding := [-1, 0] }).row) = false := by
      rw [hdbs, decide_eq_false (by norm_num : ¬ ((0 : ℝ) ≤ -1))]
      simp
    simp [handleSearchChunksStage1Rows, List.filter_cons, hpred, List.mergeSort_nil]

end LocalRAG
